import Mathlib

/-!
# selfoss UI: the localized message formatter `selfoss.ui.i18nFormat`

A shallow embedding of `i18nFormat` from `assets/js/selfoss-ui.js` (lines 276-365) and of the
JavaScript built-ins it calls (`String.prototype.trim`, `parseInt`, array indexing,
`String.prototype.replace` with a string pattern, string concatenation, `==` and `===`).

Modelling conventions.

* A JavaScript string is a `List Char`.  The scan is per UTF-16 code unit in the source; every
  character the code inspects (`{`, `}`, `,`, `#`, `$`, white space, digits) is in the basic
  plane, so copying code points instead of code units gives the same text for well-formed
  strings.
* A substitution value is `undefined`, a string or a number.  A number is either a safe integer
  (absolute value below `2 ^ 53`, where `Number.prototype.toString` prints the exact decimal
  digits; `-0` is identified with `0`, from which the code cannot tell it) or any other double
  (a fraction, an integer from `2 ^ 53` on, `NaN`, an infinity), which is given by the text that
  `ToString` prints for it.  The predicates `Value.IsNumber` and `Value.Valid` say which model
  values stand for JavaScript values; every general statement whose conclusion shows the
  text of a value assumes them.
  Reading an array past its end, at a negative index or at `NaN` gives `undefined`.
* The only exception the function body can raise on an array of such values is the `TypeError`
  of calling `.replace` on `undefined` (line 338); the result type is `Except JsError _`.
* The function-level variable `pluralValue` is written immediately before its single read, so it
  is a local of `closePlural`.
-/

namespace Selfoss

/-! ## JavaScript values and built-ins -/

/-- A substitution value: an element of `params`, or the `undefined` of a missing element.
`num n` is the safe integer `n` (see `Value.IsNumber` for the range); `numText t` is a number
that is not a safe integer, given by the text `t` that `ToString` prints for it. -/
inductive Value where
  | undefined : Value
  | num (n : Int) : Value
  | str (s : List Char) : Value
  | numText (t : List Char) : Value
  deriving DecidableEq, Repr

/-- The exceptions the body of `i18nFormat` can raise. -/
inductive JsError where
  | typeError : JsError
  deriving DecidableEq, Repr

deriving instance DecidableEq for Except

/-- Decimal digits of a natural number, as `Number.prototype.toString` prints them. -/
def natText (n : Nat) : List Char := Nat.toDigits 10 n

/-- Decimal text of an integer.  It is what `Number.prototype.toString` prints for a safe
integer; from `2 ^ 53` on a double prints its shortest round-trip digits, and from `10 ^ 21` on
an exponent, which is why larger numbers are `Value.numText`. -/
def intText : Int → List Char
  | Int.ofNat n => natText n
  | Int.negSucc n => '-' :: natText (n + 1)

/-- The abstract operation `ToString` on a value, as used by `+` with a string operand and by
`replace` on its replacement argument. -/
def Value.text : Value → List Char
  | .undefined => ['u', 'n', 'd', 'e', 'f', 'i', 'n', 'e', 'd']
  | .num n => intText n
  | .str s => s
  | .numText t => t

/-- White space and line terminators, the characters `trim`, `parseInt` and `ToNumber` strip. -/
def isWhiteSpace (c : Char) : Bool :=
  let n := c.toNat
  n = 9 || n = 10 || n = 11 || n = 12 || n = 13 || n = 32 || n = 160 || n = 5760
    || (8192 ≤ n && n ≤ 8202) || n = 8232 || n = 8233 || n = 8239 || n = 8287
    || n = 12288 || n = 65279

/-- The method `String.prototype.trim`. -/
def jsTrim (s : List Char) : List Char :=
  ((s.dropWhile isWhiteSpace).reverse.dropWhile isWhiteSpace).reverse

/-- Value of a character as a digit (`0-9`, `a-z`, `A-Z`), or `none`. -/
def digitVal (c : Char) : Option Nat :=
  let n := c.toNat
  if 48 ≤ n ∧ n ≤ 57 then some (n - 48)
  else if 97 ≤ n ∧ n ≤ 122 then some (n - 97 + 10)
  else if 65 ≤ n ∧ n ≤ 90 then some (n - 65 + 10)
  else none

/-- Whether `c` is a digit of the given radix. -/
def isRadixDigit (radix : Nat) (c : Char) : Bool :=
  match digitVal c with
  | some d => decide (d < radix)
  | none => false

/-- Value of a digit string in the given radix (most significant digit first). -/
def digitsValue (radix : Nat) (ds : List Char) : Nat :=
  ds.foldl (fun acc c => acc * radix + (digitVal c).getD 0) 0

/-- The global function `parseInt` called with one argument; `none` is `NaN`.  The result is the
exact integer: the rounding to a double only affects integers above `2 ^ 53`, which are past the
end of every array. -/
def parseInt (s : List Char) : Option Int :=
  let s1 := s.dropWhile isWhiteSpace
  let neg : Bool := match s1 with
    | c :: _ => c = '-'
    | [] => false
  let s2 := match s1 with
    | c :: r => if c = '-' ∨ c = '+' then r else s1
    | [] => s1
  let hex : Bool := match s2 with
    | c :: d :: _ => c = '0' ∧ (d = 'x' ∨ d = 'X')
    | _ => false
  let radix := if hex then 16 else 10
  let s3 := if hex then s2.drop 2 else s2
  let z := s3.takeWhile (isRadixDigit radix)
  if z = [] then none
  else if neg then some (-(digitsValue radix z : Int))
  else some (digitsValue radix z : Int)

/-- Array element access `params[index]`. -/
def getParam (params : List Value) : Option Int → Value
  | some (Int.ofNat n) => params.getD n .undefined
  | _ => .undefined

/-- Whether the real number `m * 10 ^ e` rounds to the double `1`, i.e. lies between
`1 - 2 ^ (-54)` and `1 + 2 ^ (-53)`. -/
def roundsToOne (m : Nat) : Int → Bool
  | Int.ofNat k => m * 10 ^ k = 1
  | Int.negSucc k =>
    decide ((2 ^ 54 - 1) * 10 ^ (k + 1) ≤ m * 2 ^ 54 ∧ m * 2 ^ 54 ≤ (2 ^ 54 + 2) * 10 ^ (k + 1))

/-- The exponent part of a decimal literal: empty, or `e`/`E`, an optional sign and digits. -/
def exponentPart : List Char → Option Int
  | [] => some 0
  | c :: r =>
    if c = 'e' ∨ c = 'E' then
      let neg : Bool := match r with
        | s :: _ => s = '-'
        | [] => false
      let ds := match r with
        | s :: t => if s = '-' ∨ s = '+' then t else r
        | [] => r
      if ds ≠ [] ∧ ds.all (isRadixDigit 10) then
        some (if neg then -(digitsValue 10 ds : Int) else (digitsValue 10 ds : Int))
      else none
    else none

/-- Whether a trimmed, unsigned-or-plus decimal literal converts to the number `1`. -/
def decimalIsOne (s : List Char) : Bool :=
  let s1 := match s with
    | c :: r => if c = '+' then r else s
    | [] => s
  let ip := s1.takeWhile (isRadixDigit 10)
  let rest1 := s1.dropWhile (isRadixDigit 10)
  let fp := match rest1 with
    | c :: r => if c = '.' then r.takeWhile (isRadixDigit 10) else []
    | [] => []
  let rest2 := match rest1 with
    | c :: r => if c = '.' then r.dropWhile (isRadixDigit 10) else rest1
    | [] => rest1
  if ip = [] ∧ fp = [] then false
  else match exponentPart rest2 with
    | none => false
    | some e => roundsToOne (digitsValue 10 (ip ++ fp)) (e - (fp.length : Int))

/-- Whether `ToNumber` of a string is the number `1` (the string side of `value == 1`). -/
def stringIsOne (s : List Char) : Bool :=
  let t := jsTrim s
  match t with
  | c :: d :: r =>
    if c = '0' ∧ (d = 'x' ∨ d = 'X') then
      r ≠ [] && r.all (isRadixDigit 16) && digitsValue 16 r = 1
    else if c = '0' ∧ (d = 'o' ∨ d = 'O') then
      r ≠ [] && r.all (isRadixDigit 8) && digitsValue 8 r = 1
    else if c = '0' ∧ (d = 'b' ∨ d = 'B') then
      r ≠ [] && r.all (isRadixDigit 2) && digitsValue 2 r = 1
    else decimalIsOne t
  | _ => decimalIsOne t

/-- Strict equality with zero, `value === 0`: true of the number zero only. -/
def Value.strictEqZero : Value → Bool
  | .num n => n = 0
  | _ => false

/-- Loose equality with one, `value == 1`: a number is compared as it is, a string is converted
to a number first, `undefined` is never equal.  A number that is not a safe integer is not 1. -/
def Value.looseEqOne : Value → Bool
  | .num n => n = 1
  | .str s => stringIsOne s
  | .undefined => false
  | .numText _ => false

/-- The abstract operation `GetSubstitution` for a string pattern (no captures): expands the
dollar patterns of a replacement string. -/
def getSubstitution (matched before after : List Char) : List Char → List Char
  | [] => []
  | [c] => [c]
  | c :: d :: r =>
    if c = '$' then
      if d = '$' then '$' :: getSubstitution matched before after r
      else if d = '&' then matched ++ getSubstitution matched before after r
      else if d.toNat = 96 then before ++ getSubstitution matched before after r
      else if d.toNat = 39 then after ++ getSubstitution matched before after r
      else '$' :: d :: getSubstitution matched before after r
    else c :: getSubstitution matched before after (d :: r)

/-- The call `s.replace('#', value)`: the first `#` of `s`, if any, is replaced by the
substitution of the text of `value`. -/
def replaceHash (s : List Char) (value : Value) : List Char :=
  let before := s.takeWhile (fun c => c ≠ '#')
  match s.dropWhile (fun c => c ≠ '#') with
  | [] => s
  | _ :: after => before ++ getSubstitution ['#'] before after value.text ++ after

/-! ## The parser state of `i18nFormat` -/

/-- The variable `state`. -/
inductive PState where
  | out | index | type | plural
  deriving DecidableEq, Repr

/-- The object held by the variable `placeholder`; a property that was never assigned reads as
`undefined` (`NaN` for the index). -/
structure Placeholder where
  index : Option Int := none
  value : Value := .undefined
  type : Option (List Char) := none
  deriving DecidableEq, Repr

/-- The local variables of `i18nFormat` that live across loop iterations.  The object `plural`
is an association list from category name to sub-template, newest assignment first. -/
structure St where
  formatted : List Char
  buffer : List Char
  state : PState
  placeholder : Option Placeholder
  plural : Option (List (List Char × List Char))
  pluralKeyword : Option (List Char)
  deriving DecidableEq, Repr

/-- The values of the variables before the loop (lines 277-286). -/
def St.init : St :=
  { formatted := [], buffer := [], state := .out, placeholder := none, plural := none,
    pluralKeyword := none }

def kwZero : List Char := ['z', 'e', 'r', 'o']

def kwOne : List Char := ['o', 'n', 'e']

def kwOther : List Char := ['o', 't', 'h', 'e', 'r']

def kwPlural : List Char := ['p', 'l', 'u', 'r', 'a', 'l']

/-- Truthiness of `pluralKeyword`: a non-empty string. -/
def truthyKeyword : Option (List Char) → Bool
  | some k => k ≠ []
  | none => false

/-- Case `'{'` (lines 291-307). -/
def stepOpen (st : St) : St :=
  match st.placeholder with
  | some _ =>
    if st.state = .plural then
      let kw := jsTrim st.buffer
      if kw ∈ [kwZero, kwOne, kwOther] then
        { st with pluralKeyword := some kw, buffer := [] }
      else
        { st with pluralKeyword := none }
    else st
  | none =>
    { st with formatted := st.formatted ++ st.buffer, buffer := [], placeholder := some {},
              state := .index }

/-- The first `if`/`else if` of the case `'}'`, `','` (lines 311-322): leaving the index or the
type part of a placeholder. -/
def stepField (params : List Value) (st : St) (ph : Placeholder) : St :=
  if st.state = .index then
    let idx := parseInt (jsTrim st.buffer)
    { st with placeholder := some { ph with index := idx, value := getParam params idx },
              buffer := [] }
  else if st.state = .type then
    let ty := jsTrim st.buffer
    if ty = kwPlural then
      { st with placeholder := some { ph with type := some ty }, buffer := [],
                plural := some [], state := .plural }
    else
      { st with placeholder := some { ph with type := some ty }, buffer := [] }
  else st

/-- Lines 329-341: select the sub-template of a plural placeholder and append it. -/
def closePlural (st : St) (value : Value) (plural : List (List Char × List Char)) :
    Except JsError St :=
  let pluralValue : Option (List Char) :=
    if (plural.lookup kwZero).isSome ∧ value.strictEqZero then plural.lookup kwZero
    else if (plural.lookup kwOne).isSome ∧ value.looseEqOne then plural.lookup kwOne
    else plural.lookup kwOther
  match pluralValue with
  | none => .error .typeError
  | some pv =>
    .ok { st with formatted := st.formatted ++ replaceHash pv value, plural := none,
                  placeholder := none, state := .out }

/-- The branch `curChar == '}'` (lines 323-346).  It is only entered with a placeholder
object; in state `plural` with a pending keyword the object `plural` exists (see `Inv`), and the
property accesses on a missing object are the `TypeError` of the language. -/
def stepClose (st : St) : Except JsError St :=
  if st.state = .plural ∧ truthyKeyword st.pluralKeyword then
    match st.plural with
    | some p =>
      .ok { st with plural := some ((st.pluralKeyword.getD [], st.buffer) :: p), buffer := [],
                    pluralKeyword := none }
    | none => .error .typeError
  else
    match st.placeholder with
    | none => .error .typeError
    | some ph =>
      match st.plural with
      | some p => closePlural st ph.value p
      | none =>
        .ok { st with formatted := st.formatted ++ ph.value.text, placeholder := none,
                      state := .out }

/-- One iteration of the loop body (lines 289-355). -/
def step (params : List Value) (st : St) (curChar : Char) : Except JsError St :=
  if curChar = '{' then .ok (stepOpen st)
  else if curChar = '}' ∨ curChar = ',' then
    match st.placeholder with
    | some ph =>
      let st1 := stepField params st ph
      if curChar = '}' then stepClose st1
      else if st1.state = .index then .ok { st1 with state := .type }
      else .ok st1
    | none => .ok st
  else .ok { st with buffer := st.buffer ++ [curChar] }

/-- The loop over the characters of the template (line 288). -/
def scan (params : List Value) : St → List Char → Except JsError St
  | st, [] => .ok st
  | st, c :: cs =>
    match step params st c with
    | .ok st1 => scan params st1 cs
    | .error e => .error e

/-- The diagnostic string of line 359. -/
def errorMessage (translated : List Char) : List Char :=
  "Error formatting '".toList ++ translated ++ "', bug report?".toList

/-- The function `selfoss.ui.i18nFormat(translated, params)`. -/
def i18nFormat (translated : List Char) (params : List Value) : Except JsError (List Char) :=
  match scan params St.init translated with
  | .ok st =>
    if st.state ≠ .out then .ok (errorMessage translated)
    else .ok (st.formatted ++ st.buffer)
  | .error e => .error e

/-! ## Auxiliary notions for the statements -/

/-- The ten decimal digit characters. -/
def decChars : List Char := ['0', '1', '2', '3', '4', '5', '6', '7', '8', '9']

/-- The characters of the texts that `ToString` prints for a number: digits, point, signs, the
exponent mark and the letters of `Infinity` and `NaN`. -/
def numberChars : List Char :=
  ['0', '1', '2', '3', '4', '5', '6', '7', '8', '9', '.', '+', '-', 'e',
   'I', 'n', 'f', 'i', 't', 'y', 'N', 'a']

/-- Whether `t` is an optional minus sign and decimal digits with a value below `2 ^ 53`: the
texts that belong to `Value.num`. -/
def isSafeIntText (t : List Char) : Bool :=
  let ds := match t with
    | c :: r => if c = '-' then r else t
    | [] => t
  ds ≠ [] && ds.all (fun c => c ∈ decChars) && digitsValue 10 ds < 9007199254740992

/-- Whether `t` has the form of a text that `ToString` prints for a number: `NaN`, `Infinity`,
`-Infinity`, or an optional minus sign, digits, an optional point with digits and an optional
exponent `e`, sign, digits. -/
def isNumberText (t : List Char) : Bool :=
  if t = ['N', 'a', 'N'] ∨ t = ['I', 'n', 'f', 'i', 'n', 'i', 't', 'y']
      ∨ t = ['-', 'I', 'n', 'f', 'i', 'n', 'i', 't', 'y'] then true
  else
    let s := match t with
      | c :: r => if c = '-' then r else t
      | [] => t
    let ip := s.takeWhile (fun c => c ∈ decChars)
    let r1 := s.dropWhile (fun c => c ∈ decChars)
    let fracOk : Bool := match r1 with
      | c :: r => if c = '.' then r.takeWhile (fun c => c ∈ decChars) ≠ [] else true
      | [] => true
    let r2 := match r1 with
      | c :: r => if c = '.' then r.dropWhile (fun c => c ∈ decChars) else r1
      | [] => r1
    let expOk : Bool := match r2 with
      | [] => true
      | c :: r =>
        c = 'e' && (match r with
          | sg :: ds => (sg = '+' || sg = '-') && ds ≠ [] && ds.all (fun c => c ∈ decChars)
          | [] => false)
    ip ≠ [] && fracOk && expOk

/-- The model values that stand for a JavaScript number: a safe integer (absolute value below
`2 ^ 53`), or the printed text of another double. -/
def Value.IsNumber : Value → Prop
  | .num n => n.natAbs < 9007199254740992
  | .numText t => (∀ c ∈ t, c ∈ numberChars) ∧ isNumberText t = true ∧ isSafeIntText t = false
  | _ => False

/-- The model values that stand for a JavaScript value: `undefined`, a string or a number. -/
def Value.Valid : Value → Prop
  | .undefined => True
  | .str _ => True
  | v => v.IsNumber

instance (v : Value) : Decidable v.IsNumber := by
  cases v <;> unfold Value.IsNumber <;> infer_instance

instance (v : Value) : Decidable v.Valid := by
  cases v <;> unfold Value.Valid <;> infer_instance

/-- A literal segment: no brace and no comma. -/
def Plain (l : List Char) : Prop := ∀ c ∈ l, c ≠ '{' ∧ c ≠ '}' ∧ c ≠ ','

instance (l : List Char) : Decidable (Plain l) := by
  unfold Plain
  infer_instance

/-- The state outside a placeholder with output `f` and pending literal text `b`. -/
def outSt (f b : List Char) : St :=
  { formatted := f, buffer := b, state := .out, placeholder := none, plural := none,
    pluralKeyword := none }

/-- The template text `{i1}l1{i2}l2...` for a list of pairs of an index and the literal segment
after it. -/
def plainSegments : List (Nat × List Char) → List Char
  | [] => []
  | p :: ps => '{' :: natText p.1 ++ '}' :: p.2 ++ plainSegments ps

/-- The expected output for `plainSegments`: every placeholder replaced by the text of its own
value. -/
def plainOutput (params : List Value) : List (Nat × List Char) → List Char
  | [] => []
  | p :: ps => (params.getD p.1 .undefined).text ++ p.2 ++ plainOutput params ps

/-- The state inside the plural placeholder of value `v` with the categories `p` collected so
far: output `f`, pending text `b`, no open category. -/
def pluralSt (f : List Char) (v : Value) (p : List (List Char × List Char)) (b : List Char) :
    St :=
  { formatted := f, buffer := b, state := .plural,
    placeholder := some { index := some 0, value := v, type := some kwPlural },
    plural := some p, pluralKeyword := none }

/-- The template of a plural placeholder on value `0` with the three categories `zero`, `one`
and `other`, in this order. -/
def pluralTemplate (z o r : List Char) : List Char :=
  "\x7b0,plural,zero\x7b".toList ++ z ++ "\x7done\x7b".toList ++ o
    ++ "\x7dother\x7b".toList ++ r ++ "\x7d\x7d".toList

/-- The text `s` with its first `#`, if there is one, replaced by `r`. -/
def replaceFirstHash (r : List Char) : List Char → List Char
  | [] => []
  | c :: cs => if c = '#' then r ++ cs else c :: replaceFirstHash r cs

/-- The state inside a plural placeholder whose index was parsed as `idx`, as `pluralSt`. -/
def pluralStAt (idx : Option Int) (f : List Char) (v : Value)
    (p : List (List Char × List Char)) (b : List Char) : St :=
  { formatted := f, buffer := b, state := .plural,
    placeholder := some { index := idx, value := v, type := some kwPlural },
    plural := some p, pluralKeyword := none }

/-- The text `k1{x1}k2{x2}...` of a list of categories, each a keyword and a sub-template. -/
def categoriesText : List (List Char × List Char) → List Char
  | [] => []
  | c :: cs => c.1 ++ '{' :: c.2 ++ '}' :: categoriesText cs

/-- The plural placeholder `{i,plural,k1{x1}k2{x2}...}` on the value at index `i`. -/
def pluralPlaceholder (i : Nat) (cats : List (List Char × List Char)) : List Char :=
  '{' :: natText i ++ ",plural,".toList ++ categoriesText cats ++ ['}']

/-- Categories the code recognizes, with sub-templates free of braces and commas. -/
def CatsOk (cats : List (List Char × List Char)) : Prop :=
  ∀ c ∈ cats, c.1 ∈ [kwZero, kwOne, kwOther] ∧ Plain c.2

instance (cats : List (List Char × List Char)) : Decidable (CatsOk cats) := by
  unfold CatsOk
  infer_instance

/-- The sub-template that a list of categories defines for the keyword `k`: that of the last
category named `k`, if there is one. -/
def categoryOf (cats : List (List Char × List Char)) (k : List Char) : Option (List Char) :=
  cats.reverse.lookup k

/-- The selection rule of lines 329-337 on the categories of a placeholder: `zero` if it is
defined and the value is strictly equal to 0, else `one` if it is defined and the value is
loosely equal to 1, else `other`. -/
def selectPlural (v : Value) (cats : List (List Char × List Char)) : Option (List Char) :=
  if (categoryOf cats kwZero).isSome ∧ v.strictEqZero then categoryOf cats kwZero
  else if (categoryOf cats kwOne).isSome ∧ v.looseEqOne then categoryOf cats kwOne
  else categoryOf cats kwOther

/-- The selection rule as the specification words it for a number: `zero` if the value is 0 and
`zero` is defined, else `one` if the value is 1 and `one` is defined, else `other`. -/
def numberCategory (v : Value) (cats : List (List Char × List Char)) : Option (List Char) :=
  if (categoryOf cats kwZero).isSome ∧ v = .num 0 then categoryOf cats kwZero
  else if (categoryOf cats kwOne).isSome ∧ v = .num 1 then categoryOf cats kwOne
  else categoryOf cats kwOther

/-- The choice among the sub-templates `z`, `o`, `r` of `zero`, `one`, `other` with a strict
comparison with 0 and a loose comparison with 1: only the number 0 takes `z`; the number 1 and
the strings whose numeric value is 1 take `o`; every other value takes `r`. -/
def pluralChoice (v : Value) (z o r : List Char) : List Char :=
  match v with
  | .num n => if n = 0 then z else if n = 1 then o else r
  | .str s => if stringIsOne s then o else r
  | _ => r

/-- The relation between the variables that every reachable state satisfies: a placeholder object
exists exactly outside state `out`, and the plural mapping and keyword exist only in state
`plural`. -/
structure Inv (st : St) : Prop where
  out_iff : st.state = .out ↔ st.placeholder = none
  plural_none : st.state ≠ .plural → st.plural = none ∧ st.pluralKeyword = none
  keyword_ne : ∀ k, st.pluralKeyword = some k → k ≠ []

/-- The state with `p` put in front of the output produced so far. -/
def St.shift (p : List Char) (st : St) : St := { st with formatted := p ++ st.formatted }

/-- The text a state in `out` would return: the output so far and the pending literal text. -/
def St.render (st : St) : List Char := st.formatted ++ st.buffer

/-- The state with the pending literal text moved to the output. -/
def St.flush (st : St) : St := { st with formatted := st.formatted ++ st.buffer, buffer := [] }

/-- What of a scan result the caller observes: the final parser state and the rendered text. -/
def outcome : Except JsError St → Except JsError (PState × List Char)
  | .ok st => .ok (st.state, st.render)
  | .error e => .error e

/-- Lifting of `St.shift` to scan results. -/
def shiftResult (p : List Char) : Except JsError St → Except JsError St
  | .ok st => .ok (st.shift p)
  | .error e => .error e

/-- A template is complete for given values when its scan ends in state `out` without an
exception. -/
def Complete (params : List Value) (t : List Char) : Prop :=
  ∃ st, scan params St.init t = .ok st ∧ st.state = .out

/-! ## The entry list updaters `entryStar` and `entryMark` (lines 220-249) -/

/-- A value held in a property of an entry object.  Objects and arrays are represented by their
reference, which is what `===` compares. -/
inductive JsVal where
  | undefined : JsVal
  | null : JsVal
  | bool (b : Bool) : JsVal
  | num (n : Int) : JsVal
  | str (s : List Char) : JsVal
  | obj (ref : Nat) : JsVal
  deriving DecidableEq, Repr

/-- An entry: a plain data object, as the list of its own properties in insertion order. -/
abbrev Entry := List (List Char × JsVal)

/-- Property read `entry.k`; a missing property reads as `undefined`. -/
def getProp : Entry → List Char → JsVal
  | [], _ => .undefined
  | (k1, v1) :: r, k => if k1 = k then v1 else getProp r k

/-- The object `{...entry, k: v}`: a copy of the properties of `entry` in which `k` holds `v`;
an existing property keeps its position, a new one is added last. -/
def spreadWith : Entry → List Char → JsVal → Entry
  | [], k, v => [(k, v)]
  | (k1, v1) :: r, k, v => if k1 = k then (k1, v) :: r else (k1, v1) :: spreadWith r k v

def keyId : List Char := ['i', 'd']

def keyStarred : List Char := ['s', 't', 'a', 'r', 'r', 'e', 'd']

def keyUnread : List Char := ['u', 'n', 'r', 'e', 'a', 'd']

/-- The function that `entryStar(id, starred)` passes to `setEntries` (lines 221-232). -/
def entryStar (id starred : JsVal) (entries : List Entry) : List Entry :=
  entries.map fun entry =>
    if getProp entry keyId = id then spreadWith entry keyStarred starred else entry

/-- The function that `entryMark(id, unread)` passes to `setEntries` (lines 237-248). -/
def entryMark (id unread : JsVal) (entries : List Entry) : List Entry :=
  entries.map fun entry =>
    if getProp entry keyId = id then spreadWith entry keyUnread unread else entry

/-- What the updater for the field `k` may do to the entry `e`, giving `e1`: leave an entry
with another id unchanged, and on an entry with the given id set `k` to `v`, keep every other
property and keep the order of the properties that were there. -/
def FieldUpdate (id : JsVal) (k : List Char) (v : JsVal) (e e1 : Entry) : Prop :=
  (getProp e keyId ≠ id → e1 = e)
    ∧ (getProp e keyId = id →
        getProp e1 k = v ∧ (∀ k1, k1 ≠ k → getProp e1 k1 = getProp e k1)
          ∧ (e1.map Prod.fst).filter (fun k1 => k1 ≠ k) = (e.map Prod.fst).filter (fun k1 => k1 ≠ k))

/-! ## Basic facts about the scan -/

theorem Plain.nil : Plain [] := by intro c hc; cases hc

theorem Plain.cons_iff {c : Char} {l : List Char} :
    Plain (c :: l) ↔ (c ≠ '{' ∧ c ≠ '}' ∧ c ≠ ',') ∧ Plain l := by
  simp [Plain]

theorem scan_nil (params : List Value) (st : St) : scan params st [] = .ok st := rfl

theorem scan_cons (params : List Value) (st : St) (c : Char) (cs : List Char) :
    scan params st (c :: cs) =
      match step params st c with
      | .ok st1 => scan params st1 cs
      | .error e => .error e := rfl

theorem scan_append (params : List Value) (a b : List Char) (st : St) :
    scan params st (a ++ b) =
      match scan params st a with
      | .ok st1 => scan params st1 b
      | .error e => .error e := by
  induction a generalizing st with
  | nil => rfl
  | cons c cs ih =>
    simp only [List.cons_append, scan_cons]
    cases step params st c with
    | ok st1 => exact ih st1
    | error e => rfl

theorem step_plain (params : List Value) (st : St) (c : Char)
    (h : c ≠ '{' ∧ c ≠ '}' ∧ c ≠ ',') :
    step params st c = .ok { st with buffer := st.buffer ++ [c] } := by
  simp [step, h.1, h.2.1, h.2.2]

theorem scan_plain (params : List Value) (l : List Char) (hl : Plain l) (st : St) :
    scan params st l = .ok { st with buffer := st.buffer ++ l } := by
  induction l generalizing st with
  | nil => simp [scan_nil]
  | cons c cs ih =>
    rw [Plain.cons_iff] at hl
    rw [scan_cons, step_plain params st c hl.1]
    simp [ih hl.2]

/-! ## Unterminated placeholders -/

theorem stepField_state_ne_out (params : List Value) (st : St) (ph : Placeholder)
    (h : st.state ≠ .out) : (stepField params st ph).state ≠ .out := by
  unfold stepField
  by_cases h1 : st.state = .index
  · simp [h1]
  · by_cases h2 : st.state = .type
    · by_cases h3 : jsTrim st.buffer = kwPlural <;> simp [h2, h3]
    · simp [h1, h2, h]

theorem stepOpen_state_ne_out (st : St) (h : st.state ≠ .out) : (stepOpen st).state ≠ .out := by
  unfold stepOpen
  cases hp : st.placeholder with
  | none => simp
  | some ph => simp only []; split_ifs <;> simp_all

/-- A character other than the closing brace neither throws nor leaves a placeholder. -/
theorem step_no_close (params : List Value) (st : St) (c : Char) (hc : c ≠ '}')
    (h : st.state ≠ .out) : ∃ st1, step params st c = .ok st1 ∧ st1.state ≠ .out := by
  unfold step
  by_cases h1 : c = '{'
  · exact ⟨_, by simp [h1], stepOpen_state_ne_out st h⟩
  · by_cases h2 : c = ','
    · cases hp : st.placeholder with
      | none => exact ⟨st, by simp [h2, hp], h⟩
      | some ph =>
        have hf := stepField_state_ne_out params st ph h
        by_cases h3 : (stepField params st ph).state = .index
        · exact ⟨{ stepField params st ph with state := .type }, by simp [h2, hp, h3], by simp⟩
        · exact ⟨stepField params st ph, by simp [h2, hp, h3], hf⟩
    · exact ⟨{ st with buffer := st.buffer ++ [c] }, by simp [h1, h2, hc], h⟩

theorem scan_no_close (params : List Value) (t : List Char) (ht : '}' ∉ t) (st : St)
    (h : st.state ≠ .out) : ∃ st1, scan params st t = .ok st1 ∧ st1.state ≠ .out := by
  induction t generalizing st with
  | nil => exact ⟨st, rfl, h⟩
  | cons c cs ih =>
    have hc : c ≠ '}' := fun e => ht (by simp [e])
    have hcs : '}' ∉ cs := fun e => ht (by simp [e])
    obtain ⟨st1, h1, h2⟩ := step_no_close params st c hc h
    rw [scan_cons, h1]
    exact ih hcs st1 h2

theorem scan_open_no_close (params : List Value) (t : List Char) (ho : '{' ∈ t) (ht : '}' ∉ t)
    (st : St) (h : st.placeholder = none) :
    ∃ st1, scan params st t = .ok st1 ∧ st1.state ≠ .out := by
  induction t generalizing st with
  | nil => cases ho
  | cons c cs ih =>
    have hc : c ≠ '}' := fun e => ht (by simp [e])
    have hcs : '}' ∉ cs := fun e => ht (by simp [e])
    rw [scan_cons]
    by_cases h1 : c = '{'
    · have : step params st c = .ok (stepOpen st) := by simp [step, h1]
      rw [this]
      exact scan_no_close params cs hcs _ (by simp [stepOpen, h])
    · have ho2 : '{' ∈ cs := by
        rcases List.mem_cons.1 ho with e | e
        · exact absurd e.symm h1
        · exact e
      by_cases h2 : c = ','
      · have : step params st c = .ok st := by simp [step, h2, h]
        rw [this]
        exact ih ho2 hcs st h
      · have : step params st c = .ok { st with buffer := st.buffer ++ [c] } := by
          simp [step, h1, h2, hc]
        rw [this]
        exact ih ho2 hcs _ h

/-- Claim C2: a template with an opening brace and no closing brace is reported as the diagnostic
string `Error formatting '<template>', bug report?`, without an exception, whatever the
values are. -/
theorem i18nFormat_unterminated (t : List Char) (params : List Value)
    (ho : '{' ∈ t) (hc : '}' ∉ t) :
    i18nFormat t params
      = .ok ("Error formatting '".toList ++ t ++ "', bug report?".toList) := by
  obtain ⟨st1, h1, h2⟩ := scan_open_no_close params t ho hc St.init rfl
  simp [i18nFormat, h1, h2, errorMessage]

theorem i18nFormat_unterminated_witness :
    i18nFormat ['{', '0'] [Value.num 1]
      = .ok ("Error formatting '".toList ++ ['{', '0'] ++ "', bug report?".toList) :=
  i18nFormat_unterminated ['{', '0'] [Value.num 1] (by decide) (by decide)

/-! ## Reachable states and concatenation of templates -/

theorem Inv.init : Inv St.init :=
  ⟨by simp [St.init], by simp [St.init], by simp [St.init]⟩

theorem Inv.stepOpen {st : St} (h : Inv st) : Inv (stepOpen st) := by
  obtain ⟨h1, h2, h3⟩ := h
  unfold Selfoss.stepOpen
  cases hp : st.placeholder with
  | none =>
    have ho : st.state = .out := h1.2 hp
    have hn := h2 (by simp [ho])
    exact ⟨by simp, by simp [hn.1, hn.2], by simp [hn.2]⟩
  | some ph =>
    simp only []
    by_cases hs : st.state = .plural
    · by_cases hk : jsTrim st.buffer ∈ [kwZero, kwOne, kwOther]
      · simp only [hs, hk, if_true]
        refine ⟨by simp [hs], by simp [hs], ?_⟩
        intro k hk2
        simp only [Option.some.injEq] at hk2
        subst hk2
        intro he
        rw [he] at hk
        revert hk
        decide
      · simp only [hs, hk, if_true, if_false]
        exact ⟨by simp [hs], by simp [hs], by simp⟩
    · simp only [hs, if_false]
      exact ⟨h1, h2, h3⟩

theorem Inv.stepField {st : St} (params : List Value) (ph : Placeholder) (h : Inv st)
    (hp : st.placeholder = some ph) :
    Inv (stepField params st ph) ∧ (stepField params st ph).placeholder ≠ none := by
  obtain ⟨h1, h2, h3⟩ := h
  have hno : st.state ≠ .out := fun e => by simp [h1.1 e] at hp
  unfold Selfoss.stepField
  by_cases hi : st.state = .index
  · have hn := h2 (by simp [hi])
    simp only [hi, if_true]
    exact ⟨⟨by simp, by simp [hn.1, hn.2], by simp [hn.2]⟩, by simp⟩
  · by_cases hty : st.state = .type
    · have hn := h2 (by simp [hty])
      by_cases hpl : jsTrim st.buffer = kwPlural
      · simp only [hty, hpl, if_true]
        exact ⟨⟨by simp, by simp, by simp [hn.2]⟩, by simp⟩
      · simp only [hty, hpl, if_true, if_false]
        exact ⟨⟨by simp, by simp [hn.1, hn.2], by simp [hn.2]⟩, by simp⟩
    · simp only [hi, hty, if_false]
      exact ⟨⟨h1, h2, h3⟩, by simp [hp]⟩

theorem Inv.keyword_none_of_not_truthy {st : St} (h : Inv st)
    (hk : ¬(st.state = .plural ∧ truthyKeyword st.pluralKeyword = true)) :
    st.pluralKeyword = none := by
  by_cases hs : st.state = .plural
  · cases hkw : st.pluralKeyword with
    | none => rfl
    | some k =>
      exfalso
      apply hk
      refine ⟨hs, ?_⟩
      simp [truthyKeyword, hkw, h.keyword_ne k hkw]
  · exact (h.plural_none hs).2

theorem Inv.stepClose {st st1 : St} (h : Inv st)
    (hs : stepClose st = .ok st1) : Inv st1 := by
  unfold Selfoss.stepClose at hs
  by_cases hk : st.state = .plural ∧ truthyKeyword st.pluralKeyword = true
  · simp only [hk, and_self, if_true] at hs
    cases hpl : st.plural with
    | none => simp [hpl] at hs
    | some p =>
      simp only [hpl, Except.ok.injEq] at hs
      subst hs
      refine ⟨?_, by simp [hk.1], by simp⟩
      simpa [hk.1] using h.out_iff
  · have hkn := h.keyword_none_of_not_truthy hk
    simp only [hk, if_false] at hs
    cases hph : st.placeholder with
    | none => simp [hph] at hs
    | some ph =>
      simp only [hph] at hs
      cases hpl : st.plural with
      | none =>
        simp only [hpl, Except.ok.injEq] at hs
        subst hs
        exact ⟨by simp, by simp [hkn], by simp [hkn]⟩
      | some p =>
        simp only [hpl, closePlural] at hs
        split at hs
        · cases hs
        · simp only [Except.ok.injEq] at hs
          subst hs
          exact ⟨by simp, by simp [hkn], by simp [hkn]⟩

theorem Inv.step {st st1 : St} (params : List Value) (c : Char) (h : Inv st)
    (hs : step params st c = .ok st1) : Inv st1 := by
  unfold Selfoss.step at hs
  by_cases h1 : c = '{'
  · simp only [h1, if_true, Except.ok.injEq] at hs
    subst hs
    exact h.stepOpen
  · by_cases h2 : c = '}' ∨ c = ','
    · simp only [h1, h2, if_true, if_false] at hs
      cases hp : st.placeholder with
      | none =>
        simp only [hp, Except.ok.injEq] at hs
        subst hs
        exact h
      | some ph =>
        simp only [hp] at hs
        obtain ⟨hf, hfp⟩ := h.stepField params ph hp
        by_cases h3 : c = '}'
        · simp only [h3, if_true] at hs
          exact hf.stepClose hs
        · simp only [h3, if_false] at hs
          by_cases h4 : (Selfoss.stepField params st ph).state = .index
          · simp only [h4, if_true, Except.ok.injEq] at hs
            subst hs
            have hn := hf.plural_none (by simp [h4])
            refine ⟨?_, by simp [hn.1, hn.2], by simp [hn.2]⟩
            simp only [false_iff, reduceCtorEq]
            exact hfp
          · simp only [h4, if_false, Except.ok.injEq] at hs
            subst hs
            exact hf
    · simp only [h1, h2, if_false, Except.ok.injEq] at hs
      subst hs
      exact ⟨h.out_iff, h.plural_none, h.keyword_ne⟩

theorem Inv.scan {st st1 : St} (params : List Value) (t : List Char) (h : Inv st)
    (hs : scan params st t = .ok st1) : Inv st1 := by
  induction t generalizing st with
  | nil =>
    simp only [scan_nil, Except.ok.injEq] at hs
    subst hs
    exact h
  | cons c cs ih =>
    rw [scan_cons] at hs
    cases hc : Selfoss.step params st c with
    | error e => simp [hc] at hs
    | ok st2 =>
      simp only [hc] at hs
      exact ih (h.step params c hc) hs

theorem stepOpen_shift (p : List Char) (st : St) :
    stepOpen (st.shift p) = (stepOpen st).shift p := by
  unfold stepOpen
  cases hp : st.placeholder with
  | none => simp [St.shift, hp]
  | some ph =>
    simp only [St.shift, hp]
    split_ifs <;> simp [hp]

theorem stepField_shift (params : List Value) (p : List Char) (st : St) (ph : Placeholder) :
    stepField params (st.shift p) ph = (stepField params st ph).shift p := by
  unfold stepField
  simp only [St.shift]
  split_ifs <;> rfl

theorem stepClose_shift (p : List Char) (st : St) :
    stepClose (st.shift p) = shiftResult p (stepClose st) := by
  unfold stepClose
  simp only [St.shift]
  by_cases hk : st.state = .plural ∧ truthyKeyword st.pluralKeyword = true
  · simp only [hk, and_self, if_true]
    cases hpl : st.plural <;> simp [shiftResult, St.shift]
  · simp only [hk, if_false]
    cases hph : st.placeholder with
    | none => simp [shiftResult]
    | some ph =>
      cases hpl : st.plural with
      | none => simp [shiftResult, St.shift]
      | some pl =>
        simp only [closePlural]
        split <;> simp [shiftResult, St.shift]

theorem step_shift (params : List Value) (p : List Char) (st : St) (c : Char) :
    step params (st.shift p) c = shiftResult p (step params st c) := by
  unfold step
  by_cases h1 : c = '{'
  · simp only [h1, if_true, stepOpen_shift, shiftResult]
  · by_cases h2 : c = '}' ∨ c = ','
    · simp only [h1, h2, if_true, if_false]
      cases hp : st.placeholder with
      | none =>
        have : (st.shift p).placeholder = none := hp
        simp only [this, shiftResult]
      | some ph =>
        have : (st.shift p).placeholder = some ph := hp
        simp only [this, stepField_shift]
        by_cases h3 : c = '}'
        · simp only [h3, if_true, stepClose_shift]
        · simp only [h3, if_false]
          have hs : ((stepField params st ph).shift p).state = (stepField params st ph).state := rfl
          rw [hs]
          split_ifs <;> rfl
    · simp only [h1, h2, if_false, shiftResult]
      rfl

theorem scan_shift (params : List Value) (p : List Char) (t : List Char) (st : St) :
    scan params (st.shift p) t = shiftResult p (scan params st t) := by
  induction t generalizing st with
  | nil => rfl
  | cons c cs ih =>
    rw [scan_cons, scan_cons, step_shift]
    cases step params st c with
    | error e => rfl
    | ok st1 => exact ih st1

/-- Outside a placeholder, text pending in the buffer and text already in the output are
indistinguishable to the rest of the scan. -/
theorem scan_flush (params : List Value) (t : List Char) (st : St)
    (hp : st.placeholder = none) :
    outcome (scan params st t) = outcome (scan params st.flush t) := by
  induction t generalizing st with
  | nil => simp [scan_nil, outcome, St.flush, St.render]
  | cons c cs ih =>
    rw [scan_cons, scan_cons]
    by_cases h1 : c = '{'
    · have e1 : step params st c = .ok (stepOpen st) := by simp [step, h1]
      have e2 : step params st.flush c = .ok (stepOpen st.flush) := by simp [step, h1]
      have e3 : stepOpen st.flush = stepOpen st := by simp [stepOpen, St.flush, hp]
      rw [e1, e2, e3]
    · by_cases h2 : c = '}' ∨ c = ','
      · have e1 : step params st c = .ok st := by simp [step, h1, h2, hp]
        have e2 : step params st.flush c = .ok st.flush := by
          simp [step, h1, h2, St.flush, hp]
        rw [e1, e2]
        exact ih st hp
      · have e1 : step params st c = .ok { st with buffer := st.buffer ++ [c] } := by
          simp [step, h1, h2]
        have e2 : step params st.flush c
            = .ok { st.flush with buffer := st.flush.buffer ++ [c] } := by
          simp [step, h1, h2]
        rw [e1, e2]
        simp only []
        have i1 := ih { st with buffer := st.buffer ++ [c] } hp
        have i2 := ih { st.flush with buffer := st.flush.buffer ++ [c] } hp
        have e3 : St.flush { st with buffer := st.buffer ++ [c] }
            = St.flush { st.flush with buffer := st.flush.buffer ++ [c] } := by
          simp [St.flush]
        rw [i1, i2, e3]

theorem i18nFormat_of_scan {params : List Value} {t : List Char} {st : St}
    (h : scan params St.init t = .ok st) (ho : st.state = .out) :
    i18nFormat t params = .ok st.render := by
  simp [i18nFormat, h, ho, St.render]

/-- Claim C10: for templates `s` and `t` whose scans end in state `out` without an exception,
formatting the concatenation gives the concatenation of the two formatted texts. -/
theorem i18nFormat_append (params : List Value) (s t : List Char)
    (hs : Complete params s) (ht : Complete params t) :
    ∃ rs rt, i18nFormat s params = .ok rs ∧ i18nFormat t params = .ok rt
      ∧ i18nFormat (s ++ t) params = .ok (rs ++ rt) := by
  obtain ⟨ss, hss, hso⟩ := hs
  obtain ⟨tt, htt, hto⟩ := ht
  refine ⟨ss.render, tt.render, i18nFormat_of_scan hss hso, i18nFormat_of_scan htt hto, ?_⟩
  have hinv : Inv ss := Inv.init.scan params s hss
  have hph : ss.placeholder = none := hinv.out_iff.1 hso
  have hn := hinv.plural_none (by simp [hso])
  have hfl : ss.flush = St.init.shift ss.render := by
    cases ss
    simp_all [St.flush, St.shift, St.init, St.render]
  have h1 := scan_flush params t ss hph
  rw [hfl, scan_shift, htt] at h1
  cases hst : scan params ss t with
  | error e => simp [hst, outcome, shiftResult] at h1
  | ok st2 =>
    simp only [hst, outcome, shiftResult, Except.ok.injEq, Prod.mk.injEq] at h1
    have h2 : scan params St.init (s ++ t) = .ok st2 := by
      rw [scan_append, hss]
      exact hst
    have h3 : st2.state = .out := by rw [h1.1]; exact hto
    rw [i18nFormat_of_scan h2 h3, h1.2]
    simp [St.render, St.shift]

theorem i18nFormat_append_witness :
    ∃ rs rt, i18nFormat "a\x7b0\x7d".toList [Value.num 4] = .ok rs
      ∧ i18nFormat "b\x7b0,plural,other\x7b#c\x7d\x7dd".toList [Value.num 4] = .ok rt
      ∧ i18nFormat ("a\x7b0\x7d".toList ++ "b\x7b0,plural,other\x7b#c\x7d\x7dd".toList)
          [Value.num 4] = .ok (rs ++ rt) :=
  i18nFormat_append [Value.num 4] _ _ ⟨_, rfl, rfl⟩ ⟨_, rfl, rfl⟩

/-! ## Decimal digits, `trim` and `parseInt` -/

theorem digitChar_mem (k : Nat) (hk : k < 10) : Nat.digitChar k ∈ decChars := by
  interval_cases k <;> decide

theorem digitVal_digitChar (k : Nat) (hk : k < 10) : digitVal (Nat.digitChar k) = some k := by
  interval_cases k <;> decide

theorem decChars_props : ∀ c ∈ decChars,
    isWhiteSpace c = false ∧ isRadixDigit 10 c = true ∧ c ≠ '-' ∧ c ≠ '+' ∧ c ≠ 'x' ∧ c ≠ 'X'
      ∧ c ≠ '{' ∧ c ≠ '}' ∧ c ≠ ',' := by
  decide

theorem digitsValue_snoc (radix : Nat) (ds : List Char) (c : Char) :
    digitsValue radix (ds ++ [c]) = digitsValue radix ds * radix + (digitVal c).getD 0 := by
  simp [digitsValue, List.foldl_append]

/-- The digits that `Nat.toDigitsCore` puts in front of its accumulator. -/
theorem toDigitsCore_spec (fuel : Nat) : ∀ (n : Nat) (acc : List Char), n < fuel →
    ∃ pre, Nat.toDigitsCore 10 fuel n acc = pre ++ acc ∧ pre ≠ []
      ∧ (∀ c ∈ pre, c ∈ decChars) ∧ digitsValue 10 pre = n := by
  induction fuel with
  | zero => intro n acc h; omega
  | succ fuel ih =>
    intro n acc h
    have hmod : n % 10 < 10 := Nat.mod_lt _ (by decide)
    by_cases h0 : n / 10 = 0
    · refine ⟨[Nat.digitChar (n % 10)], by simp [Nat.toDigitsCore, h0], by simp, ?_, ?_⟩
      · intro c hc
        rw [List.mem_singleton] at hc
        subst hc
        exact digitChar_mem _ hmod
      · have := digitsValue_snoc 10 [] (Nat.digitChar (n % 10))
        simp only [List.nil_append] at this
        rw [this, digitVal_digitChar _ hmod]
        simp only [digitsValue, List.foldl_nil, Option.getD_some]
        omega
    · have hlt : n / 10 < fuel := by omega
      obtain ⟨pre, e1, _, e3, e4⟩ := ih (n / 10) (Nat.digitChar (n % 10) :: acc) hlt
      refine ⟨pre ++ [Nat.digitChar (n % 10)], ?_, by simp, ?_, ?_⟩
      · simp [Nat.toDigitsCore, h0, e1]
      · intro c hc
        rcases List.mem_append.1 hc with hc | hc
        · exact e3 c hc
        · rw [List.mem_singleton] at hc
          subst hc
          exact digitChar_mem _ hmod
      · rw [digitsValue_snoc, e4, digitVal_digitChar _ hmod]
        simp only [Option.getD_some]
        omega

theorem natText_spec (n : Nat) :
    natText n ≠ [] ∧ (∀ c ∈ natText n, c ∈ decChars) ∧ digitsValue 10 (natText n) = n := by
  obtain ⟨pre, e1, e2, e3, e4⟩ := toDigitsCore_spec (n + 1) n [] (Nat.lt_succ_self n)
  have : natText n = pre := by simpa [natText, Nat.toDigits] using e1
  rw [this]
  exact ⟨e2, e3, e4⟩

theorem natText_plain (n : Nat) : Plain (natText n) := by
  intro c hc
  have := decChars_props c ((natText_spec n).2.1 c hc)
  exact ⟨this.2.2.2.2.2.2.1, this.2.2.2.2.2.2.2.1, this.2.2.2.2.2.2.2.2⟩

theorem dropWhile_eq_self_of_head {p : Char → Bool} :
    ∀ (l : List Char), (∀ c, l.head? = some c → p c = false) → l.dropWhile p = l
  | [], _ => rfl
  | c :: r, h => by simp [List.dropWhile_cons, h c rfl]

theorem jsTrim_eq_self (l : List Char) (h : ∀ c ∈ l, isWhiteSpace c = false) : jsTrim l = l := by
  unfold jsTrim
  rw [dropWhile_eq_self_of_head l (fun c hc => h c (List.mem_of_mem_head? hc))]
  rw [dropWhile_eq_self_of_head l.reverse
    (fun c hc => h c (List.mem_reverse.1 (List.mem_of_mem_head? hc)))]
  exact List.reverse_reverse l

theorem parseInt_decimal (ds : List Char) (hne : ds ≠ []) (h : ∀ c ∈ ds, c ∈ decChars) :
    parseInt ds = some (digitsValue 10 ds : Int) := by
  have hp := fun c hc => decChars_props c (h c hc)
  cases ds with
  | nil => exact absurd rfl hne
  | cons c r =>
    have hc := hp c (by simp)
    have htake : (c :: r).takeWhile (isRadixDigit 10) = c :: r :=
      List.takeWhile_eq_self_iff.2 (fun x hx => (hp x hx).2.1)
    have hhex : (match c :: r with
        | c :: d :: _ => decide (c = '0' ∧ (d = 'x' ∨ d = 'X'))
        | _ => false) = false := by
      cases r with
      | nil => rfl
      | cons d r2 =>
        have hd := hp d (by simp)
        simp [hd.2.2.2.2.1, hd.2.2.2.2.2.1]
    unfold parseInt
    simp only [List.dropWhile_cons, hc.1, hc.2.2.1, hc.2.2.2.1, false_or, if_false,
      Bool.false_eq_true, decide_False, hhex, htake]
    simp

theorem parseInt_natText (n : Nat) : parseInt (jsTrim (natText n)) = some (n : Int) := by
  obtain ⟨h1, h2, h3⟩ := natText_spec n
  rw [jsTrim_eq_self _ (fun c hc => (decChars_props c (h2 c hc)).1), parseInt_decimal _ h1 h2, h3]

theorem getParam_natText (params : List Value) (n : Nat) :
    getParam params (parseInt (jsTrim (natText n))) = params.getD n .undefined := by
  rw [parseInt_natText]
  rfl

/-! ## Plain placeholders -/

theorem scan_plain_outSt (params : List Value) (l : List Char) (hl : Plain l) (f b : List Char) :
    scan params (outSt f b) l = .ok (outSt f (b ++ l)) := by
  rw [scan_plain params l hl]
  rfl

/-- The opening brace outside a placeholder, followed by a literal segment. -/
theorem scan_open_plain (params : List Value) (l : List Char) (hl : Plain l) (f b : List Char) :
    scan params (outSt f b) ('{' :: l)
      = .ok { formatted := f ++ b, buffer := l, state := .index, placeholder := some {},
              plural := none, pluralKeyword := none } := by
  rw [scan_cons]
  have : step params (outSt f b) '{' = .ok (stepOpen (outSt f b)) := by simp [step]
  rw [this]
  simp only []
  rw [scan_plain params l hl]
  simp [stepOpen, outSt]

/-- A placeholder `{i}` outside any other placeholder appends the text of `params[i]`. -/
theorem scan_placeholder (params : List Value) (i : Nat) (f b : List Char) :
    scan params (outSt f b) ('{' :: natText i ++ ['}'])
      = .ok (outSt (f ++ b ++ (params.getD i .undefined).text) []) := by
  rw [scan_append, scan_open_plain params _ (natText_plain i)]
  simp only [scan_cons, scan_nil]
  simp [step, stepField, stepClose, getParam_natText, outSt]

theorem scan_plainSegments (params : List Value) (parts : List (Nat × List Char))
    (h : ∀ p ∈ parts, Plain p.2) (f b : List Char) :
    ∃ f1 b1, scan params (outSt f b) (plainSegments parts) = .ok (outSt f1 b1)
      ∧ f1 ++ b1 = f ++ b ++ plainOutput params parts := by
  induction parts generalizing f b with
  | nil => exact ⟨f, b, rfl, by simp [plainOutput]⟩
  | cons p ps ih =>
    have hp : Plain p.2 := h p (by simp)
    obtain ⟨f1, b1, e1, e2⟩ := ih (fun q hq => h q (by simp [hq]))
      (f ++ b ++ (params.getD p.1 .undefined).text) ([] ++ p.2)
    refine ⟨f1, b1, ?_, ?_⟩
    · have e : plainSegments (p :: ps)
          = ('{' :: natText p.1 ++ ['}']) ++ (p.2 ++ plainSegments ps) := by
        simp [plainSegments]
      rw [e, scan_append, scan_placeholder]
      simp only []
      rw [scan_append, scan_plain_outSt params p.2 hp]
      exact e1
    · rw [e2]
      simp [plainOutput]

/-- Claim C4: in a template `l0{i1}l1...{in}ln` whose indices are within the values and whose
literal segments have no brace and no comma, every placeholder is replaced by the text of its
own value, in textual order.  The values referred to are JavaScript values (`Value.Valid`), so
that the text is the one the code prints. -/
theorem i18nFormat_plainSegments (params : List Value) (l0 : List Char)
    (parts : List (Nat × List Char)) (h0 : Plain l0)
    (h : ∀ p ∈ parts,
      p.1 < params.length ∧ (params.getD p.1 .undefined).Valid ∧ Plain p.2) :
    i18nFormat (l0 ++ plainSegments parts) params = .ok (l0 ++ plainOutput params parts) := by
  obtain ⟨f1, b1, e1, e2⟩ :=
    scan_plainSegments params parts (fun p hp => (h p hp).2.2) [] ([] ++ l0)
  have hs : scan params St.init (l0 ++ plainSegments parts) = .ok (outSt f1 b1) := by
    rw [scan_append]
    have : St.init = outSt [] [] := rfl
    rw [this, scan_plain_outSt params l0 h0]
    exact e1
  rw [i18nFormat_of_scan hs rfl]
  simp only [St.render, outSt, e2]
  simp

theorem i18nFormat_plainSegments_witness :
    i18nFormat ("a".toList ++ plainSegments [(1, "b".toList), (0, [])])
        [Value.num 42, Value.str "x".toList]
      = .ok ("a".toList ++ plainOutput [Value.num 42, Value.str "x".toList]
          [(1, "b".toList), (0, [])]) :=
  i18nFormat_plainSegments [Value.num 42, Value.str "x".toList] "a".toList
    [(1, "b".toList), (0, [])] (by decide) (by decide)

/-! ## Type tags -/

/-- Claim C9, amended: a type tag whose trimmed text is not `plural` is ignored: for an index
within the values and a type text without brace or comma, `{i,ty}` formats like `{i}`, which
for a JavaScript value at `i` is the text of that value. -/
theorem i18nFormat_type_ignored (params : List Value) (i : Nat) (ty : List Char)
    (hi : i < params.length) (hty : Plain ty) (hne : jsTrim ty ≠ kwPlural) :
    i18nFormat ('{' :: natText i ++ ',' :: ty ++ ['}']) params
        = i18nFormat ('{' :: natText i ++ ['}']) params
      ∧ ((params[i]).Valid →
          i18nFormat ('{' :: natText i ++ ',' :: ty ++ ['}']) params = .ok (params[i]).text) := by
  rw [← List.getD_eq_getElem params .undefined hi]
  have h2 : i18nFormat ('{' :: natText i ++ ['}']) params
      = .ok (params.getD i .undefined).text := by
    have hs := scan_placeholder params i [] []
    have : St.init = outSt [] [] := rfl
    rw [← this] at hs
    rw [i18nFormat_of_scan hs rfl]
    simp [St.render, outSt]
  have h1 : i18nFormat ('{' :: natText i ++ ',' :: ty ++ ['}']) params
      = .ok (params.getD i .undefined).text := by
    have hs : scan params St.init ('{' :: natText i ++ ',' :: ty ++ ['}'])
        = .ok (outSt (params.getD i .undefined).text []) := by
      have e : '{' :: natText i ++ ',' :: ty ++ ['}']
          = ('{' :: natText i) ++ ([','] ++ (ty ++ ['}'])) := by simp
      have : St.init = outSt [] [] := rfl
      rw [e, this, scan_append, scan_open_plain params _ (natText_plain i)]
      simp only []
      rw [scan_append]
      simp only [scan_cons, scan_nil]
      simp only [step, stepField, parseInt_natText, getParam]
      simp only [Char.reduceEq, if_false, if_true, or_true, true_or, reduceCtorEq]
      rw [scan_append, scan_plain params ty hty]
      simp only [scan_cons, scan_nil]
      simp [step, stepField, stepClose, hne, outSt]
    rw [i18nFormat_of_scan hs rfl]
    simp [St.render, outSt]
  exact ⟨h1.trans h2.symm, fun _ => h1⟩

theorem i18nFormat_type_ignored_witness :
    i18nFormat ('{' :: natText 0 ++ ',' :: "number".toList ++ ['}']) [Value.num 7]
      = .ok (([Value.num 7] : List Value)[0]).text :=
  (i18nFormat_type_ignored [Value.num 7] 0 "number".toList (by decide) (by decide)
    (by decide)).2 (by decide)

/-- Counterexample to claim C9 as stated: the type text ` plural` (with a leading blank) is not
the string `plural`, yet `{0, plural}` does not format like `{0}`. -/
theorem i18nFormat_type_blank_plural :
    " plural".toList ≠ "plural".toList ∧ Plain " plural".toList
      ∧ i18nFormat "\x7b0, plural\x7d".toList [Value.num 5] = .error .typeError
      ∧ i18nFormat "\x7b0\x7d".toList [Value.num 5] = .ok "5".toList := by
  decide

/-! ## Plural placeholders -/

theorem scan_append_of_ok {params : List Value} {a : List Char} {st st1 : St}
    (h : scan params st a = .ok st1) (b : List Char) :
    scan params st (a ++ b) = scan params st1 b := by
  rw [scan_append, h]

theorem scan_cons_of_ok {params : List Value} {c : Char} {st st1 : St}
    (h : step params st c = .ok st1) (cs : List Char) :
    scan params st (c :: cs) = scan params st1 cs := by
  rw [scan_cons, h]

theorem scan_plural_header (params : List Value) (f b : List Char) :
    scan params (outSt f b) "\x7b0,plural,".toList
      = .ok (pluralSt (f ++ b) (params.getD 0 .undefined) [] []) := by
  rfl

theorem keyword_plain (k : List Char) (hk : k ∈ [kwZero, kwOne, kwOther]) :
    Plain k ∧ jsTrim k = k ∧ k ≠ [] := by
  simp only [List.mem_cons, List.mem_singleton, List.not_mem_nil, or_false] at hk
  rcases hk with rfl | rfl | rfl <;> decide

/-- A recognized category `k{x}` inside a plural placeholder stores `x` under `k`. -/
theorem scan_category (params : List Value) (k x : List Char)
    (hk : k ∈ [kwZero, kwOne, kwOther]) (hx : Plain x) (f : List Char) (v : Value)
    (p : List (List Char × List Char)) :
    scan params (pluralSt f v p []) (k ++ '{' :: x ++ ['}'])
      = .ok (pluralSt f v ((k, x) :: p) []) := by
  obtain ⟨h1, h2, h3⟩ := keyword_plain k hk
  have e : k ++ '{' :: x ++ ['}'] = k ++ ('{' :: (x ++ ['}'])) := by simp
  have e1 : step params { pluralSt f v p [] with buffer := (pluralSt f v p []).buffer ++ k } '{'
      = .ok { pluralSt f v p [] with pluralKeyword := some k } := by
    simp [step, stepOpen, pluralSt, h2, hk]
  have e2 : step params
      { pluralSt f v p [] with pluralKeyword := some k, buffer := [] ++ x } '}'
      = .ok (pluralSt f v ((k, x) :: p) []) := by
    simp [step, stepField, stepClose, pluralSt, truthyKeyword, h3]
  rw [e, scan_append_of_ok (scan_plain params k h1 _), scan_cons_of_ok e1,
    scan_append_of_ok (scan_plain params x hx _)]
  exact (scan_cons_of_ok e2 []).trans rfl

theorem step_plural_close (params : List Value) (f : List Char) (v : Value)
    (p : List (List Char × List Char)) (b : List Char) :
    step params (pluralSt f v p b) '}' = closePlural (pluralSt f v p b) v p := by
  simp [step, stepField, stepClose, pluralSt, truthyKeyword]

theorem pluralTemplate_eq (z o r : List Char) :
    pluralTemplate z o r
      = "\x7b0,plural,".toList ++ ((kwZero ++ '{' :: z ++ ['}'])
          ++ ((kwOne ++ '{' :: o ++ ['}']) ++ ((kwOther ++ '{' :: r ++ ['}']) ++ ['}']))) := by
  simp [pluralTemplate, kwZero, kwOne, kwOther]

/-- The result of the three-category plural template on an arbitrary value. -/
theorem i18nFormat_pluralTemplate (v : Value) (z o r : List Char)
    (hz : Plain z) (ho : Plain o) (hr : Plain r) :
    i18nFormat (pluralTemplate z o r) [v]
      = .ok (replaceHash (if v.strictEqZero then z else if v.looseEqOne then o else r) v) := by
  have hs : scan [v] St.init (pluralTemplate z o r)
      = .ok (outSt (replaceHash
          (if v.strictEqZero then z else if v.looseEqOne then o else r) v) []) := by
    have : St.init = outSt [] [] := rfl
    rw [pluralTemplate_eq, this, scan_append_of_ok (scan_plural_header [v] [] []),
      scan_append_of_ok (scan_category [v] kwZero z (by decide) hz _ _ _),
      scan_append_of_ok (scan_category [v] kwOne o (by decide) ho _ _ _),
      scan_append_of_ok (scan_category [v] kwOther r (by decide) hr _ _ _)]
    simp only [scan_cons, scan_nil, step_plural_close]
    have l0 : List.lookup kwZero [(kwOther, r), (kwOne, o), (kwZero, z)] = some z := rfl
    have l1 : List.lookup kwOne [(kwOther, r), (kwOne, o), (kwZero, z)] = some o := rfl
    have l2 : List.lookup kwOther [(kwOther, r), (kwOne, o), (kwZero, z)] = some r := rfl
    simp only [closePlural, l0, l1, l2, Option.isSome_some, true_and]
    by_cases h0 : v.strictEqZero = true
    · simp [h0, pluralSt, outSt]
    · by_cases h1 : v.looseEqOne = true
      · simp [h0, h1, pluralSt, outSt]
      · simp [h0, h1, pluralSt, outSt]
  rw [i18nFormat_of_scan hs rfl]
  simp [St.render, outSt]

/-! ## Replacement of the hash sign -/

theorem getSubstitution_of_no_dollar (matched before after : List Char) :
    ∀ (t : List Char), (∀ c ∈ t, c ≠ '$') → getSubstitution matched before after t = t
  | [], _ => rfl
  | [_], _ => rfl
  | c :: d :: r, h => by
    have hc : c ≠ '$' := h c (by simp)
    have ih := getSubstitution_of_no_dollar matched before after (d :: r)
      (fun x hx => h x (List.mem_cons_of_mem c hx))
    simp only [getSubstitution, hc, if_false, ih]

theorem replaceHash_eq_replaceFirstHash (v : Value) (h : ∀ c ∈ v.text, c ≠ '$') :
    ∀ (s : List Char), replaceHash s v = replaceFirstHash v.text s := by
  intro s
  unfold replaceHash
  simp only [getSubstitution_of_no_dollar _ _ _ v.text h]
  induction s with
  | nil => rfl
  | cons c cs ih =>
    by_cases hc : c = '#'
    · simp [hc, replaceFirstHash]
    · simp only [List.takeWhile_cons, List.dropWhile_cons, replaceFirstHash, hc, ne_eq,
        not_false_eq_true, decide_True, if_true, if_false]
      revert ih
      cases List.dropWhile (fun c => decide (c ≠ '#')) cs with
      | nil => intro ih; simp only [] at ih ⊢; rw [← ih]
      | cons a after => intro ih; simp only [] at ih ⊢; rw [← ih]; simp

theorem replaceFirstHash_append (t p q : List Char) (hp : '#' ∉ p) :
    replaceFirstHash t (p ++ '#' :: q) = p ++ t ++ q := by
  induction p with
  | nil => simp [replaceFirstHash]
  | cons c cs ih =>
    have hc : c ≠ '#' := fun e => hp (by simp [e])
    have hcs : '#' ∉ cs := fun e => hp (by simp [e])
    simp [replaceFirstHash, hc, ih hcs]

theorem intText_no_dollar (n : Int) : ∀ c ∈ (Value.num n).text, c ≠ '$' := by
  have hd : ∀ c ∈ decChars, c ≠ '$' := by decide
  intro c hc
  cases n with
  | ofNat m => exact hd c ((natText_spec m).2.1 c hc)
  | negSucc m =>
    rcases List.mem_cons.1 hc with e | e
    · rw [e]; decide
    · exact hd c ((natText_spec (m + 1)).2.1 c e)

/-! ## The string `0` in the comparison with zero -/

/-- Counterexample to claim C7 as stated: with the categories `zero`, `one` and `other` defined,
the string `0` selects `other` where the number 0 selects `zero`. -/
theorem i18nFormat_plural_string_zero :
    i18nFormat "\x7b0,plural,zero\x7bz\x7done\x7bo\x7dother\x7br\x7d\x7d".toList
        [Value.str "0".toList] = .ok "r".toList
      ∧ i18nFormat "\x7b0,plural,zero\x7bz\x7done\x7bo\x7dother\x7br\x7d\x7d".toList
        [Value.num 0] = .ok "z".toList := by
  decide

/-! ## Inputs on which the code departs from the specification -/

/-- Claim C1: a plural placeholder without the category `other`, on a value that selects it,
raises a `TypeError` instead of returning a string. -/
theorem i18nFormat_missing_other_throws :
    i18nFormat "\x7b0,plural,one\x7bx\x7d\x7d".toList [Value.num 5] = .error .typeError := by
  decide

/-- Claim C3: outside a placeholder a comma and a closing brace are dropped from the output: the
literal template `a,b}c` formats to `abc`. -/
theorem i18nFormat_literal_comma_dropped :
    '{' ∉ "a,b\x7dc".toList
      ∧ i18nFormat "a,b\x7dc".toList [] = .ok "abc".toList := by
  decide

/-- Claim C6: the closing brace of an unknown category ends the whole placeholder: the template
`{0,plural,foo{x}other{y}}` on the value 5 raises a `TypeError`, while
`{0,plural,other{y}}` gives `y`. -/
theorem i18nFormat_unknown_category_throws :
    i18nFormat "\x7b0,plural,foo\x7bx\x7dother\x7by\x7d\x7d".toList [Value.num 5]
        = .error .typeError
      ∧ i18nFormat "\x7b0,plural,other\x7by\x7d\x7d".toList [Value.num 5] = .ok "y".toList := by
  decide

/-! ## The entry list updaters -/

theorem getProp_spreadWith_same (e : Entry) (k : List Char) (v : JsVal) :
    getProp (spreadWith e k v) k = v := by
  induction e with
  | nil => simp [spreadWith, getProp]
  | cons p r ih =>
    obtain ⟨k1, v1⟩ := p
    by_cases h : k1 = k
    · simp [spreadWith, getProp, h]
    · simp [spreadWith, getProp, h, ih]

theorem getProp_spreadWith_other (e : Entry) (k k2 : List Char) (v : JsVal) (hk : k2 ≠ k) :
    getProp (spreadWith e k v) k2 = getProp e k2 := by
  induction e with
  | nil => simp [spreadWith, getProp, Ne.symm hk]
  | cons p r ih =>
    obtain ⟨k1, v1⟩ := p
    by_cases h : k1 = k
    · subst h
      simp [spreadWith, getProp, Ne.symm hk]
    · by_cases h2 : k1 = k2
      · subst h2
        simp [spreadWith, getProp, h]
      · simp [spreadWith, getProp, h, h2, ih]

theorem keys_spreadWith (e : Entry) (k : List Char) (v : JsVal) :
    ((spreadWith e k v).map Prod.fst).filter (fun k1 => k1 ≠ k)
      = (e.map Prod.fst).filter (fun k1 => k1 ≠ k) := by
  induction e with
  | nil => simp [spreadWith]
  | cons p r ih =>
    obtain ⟨k1, v1⟩ := p
    by_cases h : k1 = k
    · simp [spreadWith, h]
    · simp only [spreadWith, h, if_false, List.map_cons, List.filter_cons, ih]

theorem fieldUpdate_map (id : JsVal) (k : List Char) (v : JsVal) (e : Entry) :
    FieldUpdate id k v e (if getProp e keyId = id then spreadWith e k v else e) := by
  constructor
  · intro h
    simp [h]
  · intro h
    simp only [h, if_true]
    exact ⟨getProp_spreadWith_same e k v,
      fun k2 hk => getProp_spreadWith_other e k k2 v hk, keys_spreadWith e k v⟩

/-- Claim C11: the updaters of `entryStar(id, starred)` and `entryMark(id, unread)` keep the
length and the order of the list; at every position, an entry whose id is not strictly equal to
`id` is returned unchanged, and an entry whose id is has its `starred` (respectively `unread`)
property set to the given value and all its other properties unchanged. -/
theorem entry_updaters_frame (id v : JsVal) (entries : List Entry) :
    (entryStar id v entries).length = entries.length
      ∧ (entryMark id v entries).length = entries.length
      ∧ ∀ (i : Nat) (e : Entry), entries[i]? = some e →
          (∃ e1, (entryStar id v entries)[i]? = some e1 ∧ FieldUpdate id keyStarred v e e1)
            ∧ (∃ e2, (entryMark id v entries)[i]? = some e2 ∧ FieldUpdate id keyUnread v e e2) := by
  refine ⟨by simp [entryStar], by simp [entryMark], ?_⟩
  intro i e he
  constructor
  · exact ⟨_, by simp [entryStar, List.getElem?_map, he], fieldUpdate_map id keyStarred v e⟩
  · exact ⟨_, by simp [entryMark, List.getElem?_map, he], fieldUpdate_map id keyUnread v e⟩

theorem entry_updaters_frame_witness :
    (∃ e1, (entryStar (.num 7) (.bool true)
        [[(keyId, .num 3), (keyStarred, .bool false)],
         [(keyId, .num 7), (keyStarred, .bool false), (keyUnread, .bool true)]])[1]? = some e1
        ∧ FieldUpdate (.num 7) keyStarred (.bool true)
            [(keyId, .num 7), (keyStarred, .bool false), (keyUnread, .bool true)] e1)
      ∧ (∃ e2, (entryMark (.num 7) (.bool true)
        [[(keyId, .num 3), (keyStarred, .bool false)],
         [(keyId, .num 7), (keyStarred, .bool false), (keyUnread, .bool true)]])[1]? = some e2
        ∧ FieldUpdate (.num 7) keyUnread (.bool true)
            [(keyId, .num 7), (keyStarred, .bool false), (keyUnread, .bool true)] e2) :=
  (entry_updaters_frame (.num 7) (.bool true)
    [[(keyId, .num 3), (keyStarred, .bool false)],
     [(keyId, .num 7), (keyStarred, .bool false), (keyUnread, .bool true)]]).2.2 1
    [(keyId, .num 7), (keyStarred, .bool false), (keyUnread, .bool true)] rfl

/-! ## Plural placeholders at any index and with any recognized categories -/

theorem scan_plural_header_at (params : List Value) (i : Nat) (f b : List Char) :
    scan params (outSt f b) ('{' :: natText i ++ ",plural,".toList)
      = .ok (pluralStAt (some (i : Int)) (f ++ b) (params.getD i .undefined) [] []) := by
  have e : '{' :: natText i ++ ",plural,".toList
      = ('{' :: natText i) ++ (',' :: (kwPlural ++ [','])) := by
    simp [kwPlural]
  have hp : Plain kwPlural := by decide
  have ht : jsTrim kwPlural = kwPlural := by decide
  rw [e, scan_append_of_ok (scan_open_plain params _ (natText_plain i) f b), scan_cons]
  simp only [step, stepField, parseInt_natText, getParam]
  simp only [Char.reduceEq, if_false, if_true, or_true, true_or, reduceCtorEq]
  rw [scan_append_of_ok (scan_plain params kwPlural hp _)]
  simp only [scan_cons, scan_nil]
  simp [step, stepField, ht, pluralStAt]

theorem scan_category_at (params : List Value) (k x : List Char)
    (hk : k ∈ [kwZero, kwOne, kwOther]) (hx : Plain x) (idx : Option Int) (f : List Char)
    (v : Value) (p : List (List Char × List Char)) :
    scan params (pluralStAt idx f v p []) (k ++ '{' :: x ++ ['}'])
      = .ok (pluralStAt idx f v ((k, x) :: p) []) := by
  obtain ⟨h1, h2, h3⟩ := keyword_plain k hk
  have e : k ++ '{' :: x ++ ['}'] = k ++ ('{' :: (x ++ ['}'])) := by simp
  have e1 : step params
      { pluralStAt idx f v p [] with buffer := (pluralStAt idx f v p []).buffer ++ k } '{'
      = .ok { pluralStAt idx f v p [] with pluralKeyword := some k } := by
    simp [step, stepOpen, pluralStAt, h2, hk]
  have e2 : step params
      { pluralStAt idx f v p [] with pluralKeyword := some k, buffer := [] ++ x } '}'
      = .ok (pluralStAt idx f v ((k, x) :: p) []) := by
    simp [step, stepField, stepClose, pluralStAt, truthyKeyword, h3]
  rw [e, scan_append_of_ok (scan_plain params k h1 _), scan_cons_of_ok e1,
    scan_append_of_ok (scan_plain params x hx _)]
  exact (scan_cons_of_ok e2 []).trans rfl

theorem scan_categories (params : List Value) (idx : Option Int) (f : List Char) (v : Value) :
    ∀ (cats : List (List Char × List Char)), CatsOk cats →
      ∀ (p : List (List Char × List Char)),
        scan params (pluralStAt idx f v p []) (categoriesText cats)
          = .ok (pluralStAt idx f v (cats.reverse ++ p) [])
  | [], _, p => by simp [categoriesText, scan_nil]
  | c :: cs, h, p => by
    have hc := h c (by simp)
    have hcs : CatsOk cs := fun d hd => h d (by simp [hd])
    have e : categoriesText (c :: cs) = (c.1 ++ '{' :: c.2 ++ ['}']) ++ categoriesText cs := by
      simp [categoriesText]
    rw [e, scan_append_of_ok (scan_category_at params c.1 c.2 hc.1 hc.2 idx f v p),
      scan_categories params idx f v cs hcs ((c.1, c.2) :: p)]
    simp

theorem step_plural_close_at (params : List Value) (idx : Option Int) (f : List Char)
    (v : Value) (p : List (List Char × List Char)) (b : List Char) :
    step params (pluralStAt idx f v p b) '}' = closePlural (pluralStAt idx f v p b) v p := by
  simp [step, stepField, stepClose, pluralStAt, truthyKeyword]

theorem closePlural_eq_selectPlural (idx : Option Int) (f : List Char) (v : Value)
    (cats : List (List Char × List Char)) :
    closePlural (pluralStAt idx f v cats.reverse []) v cats.reverse
      = match selectPlural v cats with
        | some pv => .ok (outSt (f ++ replaceHash pv v) [])
        | none => .error .typeError := by
  unfold closePlural selectPlural categoryOf
  simp only []
  split <;> rename_i h1 <;> split <;> rename_i h2 <;> simp_all [pluralStAt, outSt]

/-- The scan of a plural placeholder outside any other placeholder: the selected sub-template
with its hash sign replaced is appended, or the `TypeError` is raised when none is selected. -/
theorem scan_pluralPlaceholder (params : List Value) (i : Nat)
    (cats : List (List Char × List Char)) (hc : CatsOk cats) (f b : List Char) :
    scan params (outSt f b) (pluralPlaceholder i cats)
      = match selectPlural (params.getD i .undefined) cats with
        | some pv => .ok (outSt (f ++ b ++ replaceHash pv (params.getD i .undefined)) [])
        | none => .error .typeError := by
  have e : pluralPlaceholder i cats
      = ('{' :: natText i ++ ",plural,".toList) ++ (categoriesText cats ++ ['}']) := by
    simp [pluralPlaceholder]
  rw [e, scan_append_of_ok (scan_plural_header_at params i f b),
    scan_append_of_ok (scan_categories params _ _ _ cats hc [])]
  simp only [scan_cons, scan_nil, List.append_nil, step_plural_close_at,
    closePlural_eq_selectPlural]
  cases selectPlural (params.getD i .undefined) cats <;> rfl

/-- A plural placeholder between two literal segments. -/
theorem i18nFormat_pluralPlaceholder (params : List Value) (i : Nat)
    (cats : List (List Char × List Char)) (l0 l1 pv : List Char) (hc : CatsOk cats)
    (h0 : Plain l0) (h1 : Plain l1)
    (hsel : selectPlural (params.getD i .undefined) cats = some pv) :
    i18nFormat (l0 ++ pluralPlaceholder i cats ++ l1) params
      = .ok (l0 ++ replaceHash pv (params.getD i .undefined) ++ l1) := by
  have hs : scan params St.init (l0 ++ pluralPlaceholder i cats ++ l1)
      = .ok (outSt ([] ++ ([] ++ l0) ++ replaceHash pv (params.getD i .undefined)) ([] ++ l1)) := by
    have hi : St.init = outSt [] [] := rfl
    have hp := scan_pluralPlaceholder params i cats hc [] ([] ++ l0)
    rw [hsel] at hp
    rw [List.append_assoc, hi, scan_append_of_ok (scan_plain_outSt params l0 h0 [] []),
      scan_append_of_ok hp]
    exact scan_plain_outSt params l1 h1 _ _
  rw [i18nFormat_of_scan hs rfl]
  simp [St.render, outSt]

theorem text_no_dollar_of_isNumber (v : Value) (hv : v.IsNumber) : ∀ c ∈ v.text, c ≠ '$' := by
  cases v with
  | undefined => exact absurd hv (by simp [Value.IsNumber])
  | str s => exact absurd hv (by simp [Value.IsNumber])
  | num n => exact intText_no_dollar n
  | numText t =>
    have hd : ∀ c ∈ numberChars, c ≠ '$' := by decide
    intro c hc
    exact hd c (hv.1 c hc)

/-- Which model values are numbers: fractions, large integers, `NaN` and the infinities are,
by their printed text; texts of safe integers and texts that no number prints are not. -/
theorem isNumber_examples :
    (∀ t ∈ ["0.5", "-0.000001", "1e+21", "-1.5e-7", "18446744073709552000", "9007199254740992",
        "NaN", "Infinity", "-Infinity"], (Value.numText t.toList).IsNumber)
      ∧ (∀ t ∈ ["1", "0", "-5", "9007199254740991", "", "-", "1.", "e5", "1e21", "abc", "$1"],
        ¬ (Value.numText t.toList).IsNumber)
      ∧ (Value.num 9007199254740991).IsNumber ∧ (Value.num (-9007199254740991)).IsNumber
      ∧ ¬ (Value.num 9007199254740992).IsNumber := by
  decide

theorem selectPlural_of_isNumber (v : Value) (hv : v.IsNumber)
    (cats : List (List Char × List Char)) : selectPlural v cats = numberCategory v cats := by
  cases v with
  | undefined => exact absurd hv (by simp [Value.IsNumber])
  | str s => exact absurd hv (by simp [Value.IsNumber])
  | num n => simp [selectPlural, numberCategory, Value.strictEqZero, Value.looseEqOne]
  | numText t => simp [selectPlural, numberCategory, Value.strictEqZero, Value.looseEqOne]

/-! ## The claims on plural placeholders -/

/-- Claim C5: on a numeric value, the plural template with the categories `zero`, `one` and
`other` gives the sub-template of `zero` when the value is 0, of `one` when it is 1 and of
`other` otherwise, with its (first) `#` replaced by the text of the value.  A numeric value is
a safe integer or any other double, given by its printed text. -/
theorem i18nFormat_plural_numeric (v : Value) (z o r : List Char) (hv : v.IsNumber)
    (hz : Plain z) (ho : Plain o) (hr : Plain r) :
    i18nFormat (pluralTemplate z o r) [v]
      = .ok (replaceFirstHash v.text
          (if v = .num 0 then z else if v = .num 1 then o else r)) := by
  rw [i18nFormat_pluralTemplate _ z o r hz ho hr,
    replaceHash_eq_replaceFirstHash _ (text_no_dollar_of_isNumber v hv)]
  cases v with
  | undefined => exact absurd hv (by simp [Value.IsNumber])
  | str s => exact absurd hv (by simp [Value.IsNumber])
  | num n => simp [Value.strictEqZero, Value.looseEqOne]
  | numText t => simp [Value.strictEqZero, Value.looseEqOne]

theorem i18nFormat_plural_numeric_witness :
    i18nFormat (pluralTemplate "none".toList "one #".toList "# many".toList)
        [Value.numText "1e+21".toList]
      = .ok (replaceFirstHash (Value.numText "1e+21".toList).text
          (if Value.numText "1e+21".toList = .num 0 then "none".toList
            else if Value.numText "1e+21".toList = .num 1 then "one #".toList
            else "# many".toList)) :=
  i18nFormat_plural_numeric (Value.numText "1e+21".toList) "none".toList "one #".toList
    "# many".toList (by decide) (by decide) (by decide) (by decide)

/-- Claim C8: in a plural placeholder, at any index and with any recognized categories, on a
numeric value, when the selected sub-template is `p ++ "#" ++ q` with no `#` in `p`, the
placeholder renders as `p ++ text ++ q`: only the first `#` is replaced and `q` is copied
unchanged, also between literal segments. -/
theorem i18nFormat_plural_first_hash (params : List Value) (i : Nat)
    (cats : List (List Char × List Char)) (l0 l1 p q : List Char)
    (hi : i < params.length) (hv : (params[i]).IsNumber) (hc : CatsOk cats)
    (h0 : Plain l0) (h1 : Plain l1) (hp : '#' ∉ p)
    (hsel : numberCategory params[i] cats = some (p ++ '#' :: q)) :
    i18nFormat (l0 ++ pluralPlaceholder i cats ++ l1) params
      = .ok (l0 ++ (p ++ (params[i]).text ++ q) ++ l1) := by
  have hg : params.getD i .undefined = params[i] := List.getD_eq_getElem params .undefined hi
  have hs : selectPlural (params.getD i .undefined) cats = some (p ++ '#' :: q) := by
    rw [hg, selectPlural_of_isNumber _ hv]
    exact hsel
  rw [i18nFormat_pluralPlaceholder params i cats l0 l1 _ hc h0 h1 hs, hg,
    replaceHash_eq_replaceFirstHash _ (text_no_dollar_of_isNumber _ hv),
    replaceFirstHash_append _ p q hp]

theorem i18nFormat_plural_first_hash_witness :
    i18nFormat ("x".toList ++ pluralPlaceholder 1
        [("one".toList, "#".toList), ("other".toList, "a#b#c".toList)] ++ "y".toList)
        [Value.str "s".toList, Value.num 3]
      = .ok ("x".toList ++ ("a".toList ++ (Value.num 3).text ++ "b#c".toList) ++ "y".toList) :=
  i18nFormat_plural_first_hash [Value.str "s".toList, Value.num 3] 1
    [("one".toList, "#".toList), ("other".toList, "a#b#c".toList)] "x".toList "y".toList
    "a".toList "b#c".toList (by decide) (by decide) (by decide) (by decide) (by decide)
    (by decide) (by decide)

/-- Claim C7, amended: the comparison with 0 is strict and the comparison with 1 is loose.  In
a plural placeholder whose categories define `zero`, `one` and `other`, only the number 0
selects `zero`; the number 1 and every string whose numeric value is 1 select `one`; every
other value, the string `0` included, selects `other`.  The remaining conjuncts are instances:
strings that convert to 1, strings that do not (among them `0` and the empty string, which a
loose comparison with 0 would accept), `undefined`, and the numbers 0 and 1. -/
theorem i18nFormat_plural_string_value (params : List Value) (i : Nat)
    (cats : List (List Char × List Char)) (l0 l1 z o r : List Char)
    (hi : i < params.length) (_hv : (params[i]).Valid) (hc : CatsOk cats)
    (h0 : Plain l0) (h1 : Plain l1)
    (hz : categoryOf cats kwZero = some z) (ho : categoryOf cats kwOne = some o)
    (hr : categoryOf cats kwOther = some r) :
    i18nFormat (l0 ++ pluralPlaceholder i cats ++ l1) params
        = .ok (l0 ++ replaceHash (pluralChoice params[i] z o r) params[i] ++ l1)
      ∧ (∀ s ∈ ["1", " 1 ", "1.0", "01", "+1", "0x1", "1e0", "10e-1", "\t1\n"],
          i18nFormat (pluralTemplate ['z'] ['o'] ['r']) [Value.str s.toList] = .ok ['o'])
      ∧ (∀ s ∈ ["0", "", " ", "2", "-1", "one", "true", "1x", "0x", "1 1", "Infinity"],
          i18nFormat (pluralTemplate ['z'] ['o'] ['r']) [Value.str s.toList] = .ok ['r'])
      ∧ i18nFormat (pluralTemplate ['z'] ['o'] ['r']) [Value.undefined] = .ok ['r']
      ∧ i18nFormat (pluralTemplate ['z'] ['o'] ['r']) [Value.num 0] = .ok ['z']
      ∧ i18nFormat (pluralTemplate ['z'] ['o'] ['r']) [Value.num 1] = .ok ['o'] := by
  refine ⟨?_, by decide, by decide, by decide, by decide, by decide⟩
  have hg : params.getD i .undefined = params[i] := List.getD_eq_getElem params .undefined hi
  have hs : selectPlural (params.getD i .undefined) cats
      = some (pluralChoice params[i] z o r) := by
    rw [hg]
    unfold selectPlural pluralChoice
    rw [hz, ho, hr]
    cases params[i] with
    | undefined => simp [Value.strictEqZero, Value.looseEqOne]
    | numText t => simp [Value.strictEqZero, Value.looseEqOne]
    | str s => by_cases h : stringIsOne s = true <;> simp [Value.strictEqZero, Value.looseEqOne, h]
    | num n =>
      by_cases hn0 : n = 0
      · simp [Value.strictEqZero, hn0]
      · by_cases hn1 : n = 1 <;> simp [Value.strictEqZero, Value.looseEqOne, hn0, hn1]
  rw [i18nFormat_pluralPlaceholder params i cats l0 l1 _ hc h0 h1 hs, hg]

theorem i18nFormat_plural_string_value_witness :
    i18nFormat ("a".toList ++ pluralPlaceholder 0
        [("zero".toList, "z".toList), ("one".toList, "o#".toList), ("other".toList, "r".toList)]
        ++ "b".toList) [Value.str " 1 ".toList]
      = .ok ("a".toList ++ replaceHash
          (pluralChoice ([Value.str " 1 ".toList])[0] "z".toList "o#".toList "r".toList)
          ([Value.str " 1 ".toList])[0] ++ "b".toList) :=
  (i18nFormat_plural_string_value [Value.str " 1 ".toList] 0
    [("zero".toList, "z".toList), ("one".toList, "o#".toList), ("other".toList, "r".toList)]
    "a".toList "b".toList "z".toList "o#".toList "r".toList (by decide) (by decide) (by decide)
    (by decide) (by decide) (by decide) (by decide) (by decide)).1

end Selfoss
